import Mathlib

/-!
# Verification of `daq-acquire` (src/daq-acquire.c)

A shallow embedding of the `daq-acquire` utility, which streams samples from a
Comedi DAQ card through a memory-mapped ring buffer, converts them via a
calibration polynomial, optionally block-integrates them, and prints
timestamped rows.

Modelling conventions:
* C `double` / `long double` values are modelled as `ℚ` (exact arithmetic; the
  program only ever adds, divides by a constant, and compares, so no
  floating-point rounding behaviour is claimed).
* Machine integers are modelled as `Int` (C `int`) or `Nat` (counts/indices
  that the program keeps non-negative).  Overflow is not modelled; negative
  values reach the acquisition loop only through error returns of the Comedi
  calls, which the environment record supplies explicitly.
* Calls into comedilib and the kernel are modelled by an `Env` record whose
  fields give the result of each call; the converter obtained by
  `get_converter` is represented by the `(subdevice, channel, range)` key the
  code requests, and `comedi_to_physical` by an abstract function
  `Nat → ℚ` supplied by the environment.
-/

namespace DaqAcquire

/-- `#define N_CHANS 256` — capacity of `options.channel` and of the static
`buf` array inside `print_datum`. -/
def N_CHANS : Nat := 256

/-- `AREF_GROUND` from comedi.h (value 0), the default analog reference. -/
def AREF_GROUND : Int := 0

/-- `SDF_LSAMPL` from comedi.h: subdevice uses 32-bit `lsampl_t` samples. -/
def SDF_LSAMPL : Nat := 0x10000000

/-- `SDF_SOFT_CALIBRATED` from comedi.h: subdevice uses software calibration. -/
def SDF_SOFT_CALIBRATED : Nat := 0x2000

/-- `TRIG_NONE` trigger source bit from comedi.h. -/
def TRIG_NONE : Nat := 0x00000001

/-- `TRIG_COUNT` trigger source bit from comedi.h. -/
def TRIG_COUNT : Nat := 0x00000020

/-- Embeds `struct parsed_options`.  `channel` is the `int channel[N_CHANS]`
array, modelled as a total function from index to stored value; `n_chan` is
kept as `Nat` (the C `int` only ever holds a non-negative token count). -/
structure ParsedOptions where
  filename : String
  subdevice : Int
  channel : Nat → Int
  n_chan : Nat
  aref : Int
  range : Int
  freq : ℚ
  n_scan : Int
  verbose : Bool
  integrate : Int
  fulltime : Bool

/-- The global initializer of `struct parsed_options options` (all array
entries are zero-initialized, `channel[0] = 0` explicitly). -/
def defaultOptions : ParsedOptions :=
  { filename := "/dev/comedi0"
    subdevice := 0
    channel := fun _ => 0
    n_chan := 1
    aref := AREF_GROUND
    range := 0
    freq := 10000
    n_scan := 0
    verbose := false
    integrate := 1
    fulltime := false }

/-- One output row: the printed timestamp and the printed per-channel
values, in order. -/
abbrev Row : Type := ℚ × List ℚ

/-- The hidden persistent state of `print_datum` (its `static` locals
`t`, `col`, `isamples`, `buf`) together with the scan counter `n` that
`main` passes in by pointer. -/
@[ext]
structure AggState where
  t : ℚ
  col : Nat
  isamples : Int
  buf : Nat → ℚ
  n : Int

/-- Zero-initialized statics of `print_datum` plus `n = 0` from `main`. -/
def initAggState : AggState :=
  { t := 0, col := 0, isamples := 0, buf := fun _ => 0, n := 0 }

/-- Embeds `print_datum(init, period, raw, converter, &n)`.

Direct translation of the body: lazily re-seed `isamples` from
`options.integrate` when it is zero, accumulate the converted sample into
`buf[col]`, and on completing a scan (`++col == options.n_chan`) decrement
`isamples`; when it reaches zero print a row (timestamp `t`, or `init + t`
with `-T`, then `buf[i]/(double)options.integrate` for each channel, zeroing
each `buf[i]`), and in all scan-completion cases advance `t` by
`period / 1e9` and increment `*n`. -/
def print_datum (opts : ParsedOptions) (init : ℚ) (period : Nat) (conv : Nat → ℚ)
    (raw : Nat) (s : AggState) : AggState × Option Row :=
  let isamples0 : Int := if s.isamples = 0 then opts.integrate else s.isamples
  let buf1 : Nat → ℚ := Function.update s.buf s.col (s.buf s.col + conv raw)
  if s.col + 1 = opts.n_chan then
    if isamples0 - 1 = 0 then
      ({ t := s.t + (period : ℚ) / 1000000000
         col := 0
         isamples := 0
         buf := fun i => if i < opts.n_chan then 0 else buf1 i
         n := s.n + 1 },
       some ((if opts.fulltime then init + s.t else s.t),
             (List.range opts.n_chan).map (fun i => buf1 i / (opts.integrate : ℚ))))
    else
      ({ t := s.t + (period : ℚ) / 1000000000
         col := 0
         isamples := isamples0 - 1
         buf := buf1
         n := s.n + 1 }, none)
  else
    ({ t := s.t, col := s.col + 1, isamples := isamples0, buf := buf1, n := s.n }, none)

/-- Feeding a list of raw samples through `print_datum` one at a time, as the
inner `for` loop of `main` does, collecting emitted rows in order. -/
def feed_samples (opts : ParsedOptions) (init : ℚ) (period : Nat) (conv : Nat → ℚ) :
    AggState → List Nat → AggState × List Row
  | s, [] => (s, [])
  | s, raw :: rest =>
    let step := print_datum opts init period conv raw s
    let next := feed_samples opts init period conv step.1 rest
    (next.1, step.2.toList ++ next.2)

theorem feed_samples_append (opts : ParsedOptions) (init : ℚ) (period : Nat)
    (conv : Nat → ℚ) (s : AggState) (xs ys : List Nat) :
    feed_samples opts init period conv s (xs ++ ys) =
      ((feed_samples opts init period conv
          (feed_samples opts init period conv s xs).1 ys).1,
       (feed_samples opts init period conv s xs).2 ++
       (feed_samples opts init period conv
          (feed_samples opts init period conv s xs).1 ys).2) := by
  induction xs generalizing s with
  | nil => simp [feed_samples]
  | cons x xs ih => simp [feed_samples, ih]

/-- Proof infrastructure (not source code): the per-channel sums that one
scan `xs`, starting at column `s.col`, adds on top of `s.buf`. -/
def scanBufAcc (opts : ParsedOptions) (conv : Nat → ℚ) (s : AggState)
    (xs : List Nat) : Nat → ℚ := fun i =>
  if s.col ≤ i ∧ i < opts.n_chan then s.buf i + conv (xs.getD (i - s.col) 0)
  else s.buf i

/-- Proof infrastructure (not source code): the state and emitted rows that
feeding one complete scan produces, given that the effective integration
counter at the start of the scan is `e`. -/
def scanResult (opts : ParsedOptions) (init : ℚ) (period : Nat) (conv : Nat → ℚ)
    (s : AggState) (xs : List Nat) (e : Int) : AggState × List Row :=
  let bufA := scanBufAcc opts conv s xs
  if e = 1 then
    ({ t := s.t + (period : ℚ) / 1000000000
       col := 0
       isamples := 0
       buf := fun i => if i < opts.n_chan then 0 else bufA i
       n := s.n + 1 },
     [((if opts.fulltime then init + s.t else s.t),
       (List.range opts.n_chan).map (fun i => bufA i / (opts.integrate : ℚ)))])
  else
    ({ t := s.t + (period : ℚ) / 1000000000
       col := 0
       isamples := e - 1
       buf := bufA
       n := s.n + 1 }, [])

/-- One scan's worth of samples, fed sample by sample, behaves as
`scanResult`: the converted samples are added column-wise and, at the wrap,
the effective integration counter `e` decides between emitting a row (at
`e = 1`) and merely decrementing. -/
theorem feed_scan (opts : ParsedOptions) (init : ℚ) (period : Nat) (conv : Nat → ℚ)
    (xs : List Nat) (s : AggState) (e : Int)
    (hcol : s.col + xs.length = opts.n_chan) (hx : xs ≠ [])
    (he : (if s.isamples = 0 then opts.integrate else s.isamples) = e)
    (he1 : 1 ≤ e) :
    feed_samples opts init period conv s xs = scanResult opts init period conv s xs e := by
  induction xs generalizing s with
  | nil => exact absurd rfl hx
  | cons x xs ih =>
    cases xs with
    | nil =>
      have hc : s.col + 1 = opts.n_chan := by simpa using hcol
      have hbufA : scanBufAcc opts conv s [x]
          = Function.update s.buf s.col (s.buf s.col + conv x) := by
        funext i
        by_cases hi : i = s.col
        · subst hi
          simp [scanBufAcc, Function.update, show s.col < opts.n_chan by omega]
        · have : ¬(s.col ≤ i ∧ i < opts.n_chan) := by
            rintro ⟨h1, h2⟩
            omega
          simp [scanBufAcc, Function.update, this, hi]
      simp only [feed_samples, print_datum, he, if_pos hc]
      by_cases h1 : e = 1
      · subst h1
        simp [scanResult, hbufA]
      · have hne : ¬(e - 1 = 0) := by omega
        simp [hne, scanResult, h1, hbufA]
    | cons y ys =>
      have hlt : s.col + 1 < opts.n_chan := by
        simp only [List.length_cons] at hcol
        omega
      have hne : ¬(s.col + 1 = opts.n_chan) := by omega
      have hstep : feed_samples opts init period conv s (x :: y :: ys)
          = feed_samples opts init period conv
              ⟨s.t, s.col + 1, e, Function.update s.buf s.col (s.buf s.col + conv x), s.n⟩
              (y :: ys) := by
        conv_lhs => rw [feed_samples]
        simp only [print_datum, he, if_neg hne]
        simp [feed_samples]
      have harg1 : s.col + 1 + (y :: ys).length = opts.n_chan := by
        simp only [List.length_cons] at hcol ⊢
        omega
      have harg2 : (if (e : Int) = 0 then opts.integrate else e) = e := by
        rw [if_neg (by omega)]
      rw [hstep,
        ih ⟨s.t, s.col + 1, e, Function.update s.buf s.col (s.buf s.col + conv x), s.n⟩
          harg1 (by simp) harg2]
      have hbufA : scanBufAcc opts conv
            ⟨s.t, s.col + 1, e, Function.update s.buf s.col (s.buf s.col + conv x), s.n⟩
            (y :: ys)
          = scanBufAcc opts conv s (x :: y :: ys) := by
        funext i
        simp only [scanBufAcc]
        rcases Nat.lt_trichotomy i s.col with hi | hi | hi
        · have h1 : ¬(s.col + 1 ≤ i ∧ i < opts.n_chan) := by omega
          have h2 : ¬(s.col ≤ i ∧ i < opts.n_chan) := by omega
          simp [h1, h2, Function.update, show i ≠ s.col by omega]
        · have h1 : ¬(s.col + 1 ≤ i ∧ i < opts.n_chan) := by omega
          have h2 : s.col ≤ i ∧ i < opts.n_chan := by omega
          simp [h1, h2, Function.update, hi, show s.col < opts.n_chan by omega]
        · by_cases h2 : i < opts.n_chan
          · have h1 : s.col + 1 ≤ i ∧ i < opts.n_chan := by omega
            have h2' : s.col ≤ i ∧ i < opts.n_chan := by omega
            have hidx : i - s.col = (i - (s.col + 1)) + 1 := by omega
            simp [h1, h2', Function.update, show i ≠ s.col by omega, hidx]
          · have h1 : ¬(s.col + 1 ≤ i ∧ i < opts.n_chan) := by omega
            have h2' : ¬(s.col ≤ i ∧ i < opts.n_chan) := by omega
            simp [h1, h2', Function.update, show i ≠ s.col by omega]
      simp only [scanResult, hbufA]

/-- Proof infrastructure: the sum, over a list of scans, of the converted
sample at channel position `i` of each scan. -/
def chanSum (conv : Nat → ℚ) (scans : List (List Nat)) (i : Nat) : ℚ :=
  (scans.map (fun sc => conv (sc.getD i 0))).sum

theorem chanSum_nil (conv : Nat → ℚ) (i : Nat) : chanSum conv [] i = 0 := rfl

theorem chanSum_cons (conv : Nat → ℚ) (sc : List Nat) (scans : List (List Nat))
    (i : Nat) : chanSum conv (sc :: scans) i = conv (sc.getD i 0) + chanSum conv scans i := by
  simp [chanSum]

/-- Feeding fewer scans than the effective integration counter `e` allows:
no row is emitted, the per-channel sums accumulate, the counter counts down,
and `t` and `n` advance once per scan. -/
theorem feed_scans_short (opts : ParsedOptions) (init : ℚ) (period : Nat)
    (conv : Nat → ℚ) (W : List (List Nat)) (s : AggState) (e : Int)
    (hN : 1 ≤ opts.n_chan) (hlen : ∀ sc ∈ W, sc.length = opts.n_chan)
    (hcol : s.col = 0)
    (he : (if s.isamples = 0 then opts.integrate else s.isamples) = e)
    (hW : (W.length : Int) < e) :
    feed_samples opts init period conv s W.flatten =
      ({ t := s.t + (W.length : ℚ) * ((period : ℚ) / 1000000000)
         col := 0
         isamples := if W.length = 0 then s.isamples else e - W.length
         buf := fun i => if i < opts.n_chan then s.buf i + chanSum conv W i else s.buf i
         n := s.n + W.length }, []) := by
  induction W generalizing s e with
  | nil =>
    simp only [List.flatten_nil, feed_samples, List.length_nil]
    refine Prod.ext ?_ rfl
    refine AggState.ext ?_ ?_ ?_ ?_ ?_ <;> simp [hcol]
    funext i
    simp [chanSum_nil]
  | cons sc W ih =>
    simp only [List.length_cons] at hW
    push_cast at hW
    have he1 : (1 : Int) ≤ e := by omega
    have hsc : sc.length = opts.n_chan := hlen sc (by simp)
    have hscne : sc ≠ [] := by
      intro h
      rw [h] at hsc
      simp at hsc
      omega
    rw [List.flatten_cons, feed_samples_append,
      feed_scan opts init period conv sc s e (by omega) hscne he he1]
    have hene : e ≠ 1 := by omega
    simp only [scanResult, if_neg hene]
    have hW' : (W.length : Int) < e - 1 := by omega
    have he' : (if (e - 1 : Int) = 0 then opts.integrate else e - 1) = e - 1 := by
      rw [if_neg (by omega)]
    rw [ih ⟨s.t + (period : ℚ) / 1000000000, 0, e - 1, scanBufAcc opts conv s sc, s.n + 1⟩
      (e - 1) (fun sc' h => hlen sc' (by simp [h])) rfl he' hW']
    simp only [List.length_cons]
    refine Prod.ext ?_ rfl
    refine AggState.ext ?_ ?_ ?_ ?_ ?_
    · show s.t + (period : ℚ) / 1000000000 + (W.length : ℚ) * ((period : ℚ) / 1000000000)
        = s.t + ((W.length + 1 : ℕ) : ℚ) * ((period : ℚ) / 1000000000)
      push_cast
      ring
    · rfl
    · show (if W.length = 0 then (e - 1 : Int) else e - 1 - W.length)
        = if W.length + 1 = 0 then s.isamples else e - ((W.length + 1 : ℕ) : Int)
      rw [if_neg (by omega : ¬(W.length + 1 = 0))]
      by_cases h : W.length = 0
      · rw [if_pos h, h]
        push_cast
        ring
      · rw [if_neg h]
        push_cast
        ring
    · show (fun i => if i < opts.n_chan
            then scanBufAcc opts conv s sc i + chanSum conv W i
            else scanBufAcc opts conv s sc i)
        = fun i => if i < opts.n_chan then s.buf i + chanSum conv (sc :: W) i else s.buf i
      funext i
      by_cases hi : i < opts.n_chan
      · simp only [if_pos hi, scanBufAcc, hcol, chanSum_cons]
        have : 0 ≤ i ∧ i < opts.n_chan := ⟨Nat.zero_le i, hi⟩
        simp only [if_pos this, Nat.sub_zero]
        ring
      · simp only [if_neg hi, scanBufAcc, hcol]
        have h0 : ¬(0 ≤ i ∧ i < opts.n_chan) := by
          rintro ⟨_, h⟩
          exact hi h
        simp [h0, hi]
    · show s.n + 1 + (W.length : Int) = s.n + ((W.length + 1 : ℕ) : Int)
      push_cast
      ring

/-- Feeding exactly as many scans as the effective integration counter `e`
allows: exactly one row is emitted, carrying the timestamp reached before the
last scan's `t`-advance and the per-channel accumulated sums divided by
`options.integrate`; afterwards the sums are zeroed and the counter is left
at `0` (to be lazily re-seeded by the next call). -/
theorem feed_scans_window (opts : ParsedOptions) (init : ℚ) (period : Nat)
    (conv : Nat → ℚ) (W : List (List Nat)) (s : AggState) (e : Int)
    (hN : 1 ≤ opts.n_chan) (hlen : ∀ sc ∈ W, sc.length = opts.n_chan)
    (hcol : s.col = 0)
    (he : (if s.isamples = 0 then opts.integrate else s.isamples) = e)
    (hW : (W.length : Int) = e) (he1 : 1 ≤ e) :
    feed_samples opts init period conv s W.flatten =
      ({ t := s.t + (W.length : ℚ) * ((period : ℚ) / 1000000000)
         col := 0
         isamples := 0
         buf := fun i => if i < opts.n_chan then 0 else s.buf i
         n := s.n + W.length },
       [((if opts.fulltime
            then init + (s.t + ((W.length : ℚ) - 1) * ((period : ℚ) / 1000000000))
            else s.t + ((W.length : ℚ) - 1) * ((period : ℚ) / 1000000000)),
         (List.range opts.n_chan).map
           (fun i => (s.buf i + chanSum conv W i) / (opts.integrate : ℚ)))]) := by
  induction W generalizing s e with
  | nil =>
    exfalso
    simp only [List.length_nil, Nat.cast_zero] at hW
    omega
  | cons sc W ih =>
    simp only [List.length_cons] at hW
    push_cast at hW
    have hsc : sc.length = opts.n_chan := hlen sc (by simp)
    have hscne : sc ≠ [] := by
      intro h
      rw [h] at hsc
      simp at hsc
      omega
    cases W with
    | nil =>
      have he' : e = 1 := by
        simp only [List.length_nil] at hW
        omega
      subst he'
      rw [show (sc :: ([] : List (List Nat))).flatten = sc by simp,
        feed_scan opts init period conv sc s 1 (by omega) hscne he le_rfl]
      simp only [scanResult, if_pos rfl]
      refine Prod.ext ?_ ?_
      · refine AggState.ext ?_ ?_ ?_ ?_ ?_
        · show s.t + (period : ℚ) / 1000000000
            = s.t + ((([] : List (List Nat)).length + 1 : ℕ) : ℚ) * ((period : ℚ) / 1000000000)
          simp only [List.length_nil]
          push_cast
          ring
        · rfl
        · rfl
        · show (fun i => if i < opts.n_chan then 0 else scanBufAcc opts conv s sc i)
            = fun i => if i < opts.n_chan then 0 else s.buf i
          funext i
          by_cases hi : i < opts.n_chan
          · simp [hi]
          · have h0 : ¬(s.col ≤ i ∧ i < opts.n_chan) := by
              rintro ⟨_, h⟩
              exact hi h
            simp [hi, scanBufAcc, h0]
        · show s.n + 1 = s.n + ((([] : List (List Nat)).length + 1 : ℕ) : Int)
          simp only [List.length_nil]
          push_cast
          ring
      · show [((if opts.fulltime then init + s.t else s.t),
            (List.range opts.n_chan).map
              (fun i => scanBufAcc opts conv s sc i / (opts.integrate : ℚ)))] = _
        have hts : s.t = s.t + ((((sc :: ([] : List (List Nat))).length : ℕ) : ℚ) - 1)
            * ((period : ℚ) / 1000000000) := by
          simp only [List.length_cons, List.length_nil]
          push_cast
          ring
        have hvals : (List.range opts.n_chan).map
              (fun i => scanBufAcc opts conv s sc i / (opts.integrate : ℚ))
            = (List.range opts.n_chan).map
              (fun i => (s.buf i + chanSum conv [sc] i) / (opts.integrate : ℚ)) := by
          refine List.map_congr_left ?_
          intro i hi
          rw [List.mem_range] at hi
          have h0 : s.col ≤ i ∧ i < opts.n_chan := ⟨by omega, hi⟩
          simp [scanBufAcc, h0, hcol, chanSum]
        rw [hvals, ← hts]
    | cons w W' =>
      have hWlen : ((w :: W').length : Int) = e - 1 := by
        simp only [List.length_cons] at hW ⊢
        push_cast at hW ⊢
        omega
      have he2 : (2 : Int) ≤ e := by
        have : (1 : ℕ) ≤ (w :: W').length := by simp
        omega
      rw [List.flatten_cons, feed_samples_append,
        feed_scan opts init period conv sc s e (by omega) hscne he he1]
      have hene : e ≠ 1 := by omega
      simp only [scanResult, if_neg hene]
      have he' : (if (e - 1 : Int) = 0 then opts.integrate else e - 1) = e - 1 := by
        rw [if_neg (by omega)]
      rw [ih ⟨s.t + (period : ℚ) / 1000000000, 0, e - 1, scanBufAcc opts conv s sc, s.n + 1⟩
        (e - 1) (fun sc' h => hlen sc' (by simp [h])) rfl he' hWlen (by omega)]
      have hbufval : ∀ i, i < opts.n_chan →
          scanBufAcc opts conv s sc i + chanSum conv (w :: W') i
            = s.buf i + chanSum conv (sc :: w :: W') i := by
        intro i hi
        have h0 : (0 : ℕ) ≤ i ∧ i < opts.n_chan := ⟨Nat.zero_le i, hi⟩
        simp only [scanBufAcc, hcol, if_pos h0, Nat.sub_zero, chanSum_cons]
        ring
      refine Prod.ext ?_ ?_
      · refine AggState.ext ?_ ?_ ?_ ?_ ?_
        · show s.t + (period : ℚ) / 1000000000
              + ((w :: W').length : ℚ) * ((period : ℚ) / 1000000000)
            = s.t + (((sc :: w :: W').length : ℕ) : ℚ) * ((period : ℚ) / 1000000000)
          simp only [List.length_cons]
          push_cast
          ring
        · rfl
        · rfl
        · show (fun i => if i < opts.n_chan then 0 else scanBufAcc opts conv s sc i)
            = fun i => if i < opts.n_chan then 0 else s.buf i
          funext i
          by_cases hi : i < opts.n_chan
          · simp [hi]
          · have h0 : ¬(s.col ≤ i ∧ i < opts.n_chan) := by
              rintro ⟨_, h⟩
              exact hi h
            simp [hi, scanBufAcc, h0]
        · show s.n + 1 + ((w :: W').length : Int)
            = s.n + (((sc :: w :: W').length : ℕ) : Int)
          simp only [List.length_cons]
          push_cast
          ring
      · show [] ++ [_] = [_]
        rw [List.nil_append]
        have hts : s.t + (period : ℚ) / 1000000000
              + (((w :: W').length : ℚ) - 1) * ((period : ℚ) / 1000000000)
            = s.t + ((((sc :: w :: W').length : ℕ) : ℚ) - 1) * ((period : ℚ) / 1000000000) := by
          simp only [List.length_cons]
          push_cast
          ring
        have hvals : (List.range opts.n_chan).map
              (fun i => (scanBufAcc opts conv s sc i + chanSum conv (w :: W') i)
                / (opts.integrate : ℚ))
            = (List.range opts.n_chan).map
              (fun i => (s.buf i + chanSum conv (sc :: w :: W') i) / (opts.integrate : ℚ)) := by
          refine List.map_congr_left ?_
          intro i hi
          rw [List.mem_range] at hi
          rw [hbufval i hi]
        rw [hvals, hts]

/-- Proof infrastructure: the rows the program emits when fed a list of whole
scans from a window-aligned state whose `t` is `t0`: one row per complete
integration window, timestamped at `t0 + ((j+1)*integrate - 1)` scan periods
(plus the wall-clock base with `-T`), each value the window's per-channel sum
divided by `options.integrate`. -/
def refRows (opts : ParsedOptions) (init : ℚ) (conv : Nat → ℚ) (period : Nat)
    (t0 : ℚ) (scans : List (List Nat)) : List Row :=
  (List.range (scans.length / opts.integrate.toNat)).map (fun (j : ℕ) =>
    ((if opts.fulltime then init else 0)
       + (t0 + (((j : ℚ) + 1) * (opts.integrate : ℚ) - 1) * ((period : ℚ) / 1000000000)),
     (List.range opts.n_chan).map (fun i =>
        chanSum conv ((scans.drop (j * opts.integrate.toNat)).take opts.integrate.toNat) i
          / (opts.integrate : ℚ))))

theorem integrate_toNat_cast (opts : ParsedOptions) (hI : 1 ≤ opts.integrate) :
    (opts.integrate.toNat : ℚ) = (opts.integrate : ℚ) := by
  have h := Int.toNat_of_nonneg (show (0 : ℤ) ≤ opts.integrate by omega)
  exact_mod_cast congrArg (fun z : ℤ => (z : ℚ)) h

theorem refRows_step (opts : ParsedOptions) (init : ℚ) (conv : Nat → ℚ)
    (period : Nat) (t0 : ℚ) (scans : List (List Nat))
    (hI : 1 ≤ opts.integrate) (hlen : opts.integrate.toNat ≤ scans.length) :
    refRows opts init conv period t0 scans
      = ((if opts.fulltime then init else 0)
           + (t0 + ((opts.integrate : ℚ) - 1) * ((period : ℚ) / 1000000000)),
         (List.range opts.n_chan).map (fun i =>
            chanSum conv (scans.take opts.integrate.toNat) i / (opts.integrate : ℚ)))
        :: refRows opts init conv period
             (t0 + (opts.integrate.toNat : ℚ) * ((period : ℚ) / 1000000000))
             (scans.drop opts.integrate.toNat) := by
  have hpos : 0 < opts.integrate.toNat := by omega
  rw [refRows, Nat.div_eq_sub_div hpos hlen, List.range_succ_eq_map]
  rw [List.map_cons, List.map_map]
  congr 1
  · refine Prod.ext ?_ ?_
    · show (if opts.fulltime then init else 0)
          + (t0 + ((((0 : ℕ) : ℚ) + 1) * (opts.integrate : ℚ) - 1)
              * ((period : ℚ) / 1000000000)) = _
      push_cast
      ring_nf
    · show (List.range opts.n_chan).map (fun i =>
          chanSum conv ((scans.drop (0 * opts.integrate.toNat)).take opts.integrate.toNat) i
            / (opts.integrate : ℚ)) = _
      rw [Nat.zero_mul, List.drop_zero]
  · rw [refRows, List.length_drop]
    refine List.map_congr_left ?_
    intro j _
    refine Prod.ext ?_ ?_
    · show (if opts.fulltime then init else 0)
          + (t0 + ((((Nat.succ j : ℕ) : ℚ) + 1) * (opts.integrate : ℚ) - 1)
              * ((period : ℚ) / 1000000000)) = _
      rw [integrate_toNat_cast opts hI]
      push_cast
      ring_nf
    · show (List.range opts.n_chan).map (fun i =>
            chanSum conv ((scans.drop (Nat.succ j * opts.integrate.toNat)).take
              opts.integrate.toNat) i / (opts.integrate : ℚ)) = _
      have hdrop : scans.drop (Nat.succ j * opts.integrate.toNat)
          = (scans.drop opts.integrate.toNat).drop (j * opts.integrate.toNat) := by
        rw [List.drop_drop]
        congr 1
        rw [Nat.succ_mul]
        ring
      rw [hdrop]

/-- Full behaviour of `print_datum` on a list of whole scans starting from a
window-aligned state with zeroed sums (in particular the initial state): `t`
advances once per scan whether or not a row is emitted, the scan counter `n`
advances once per scan, the emitted rows are exactly `refRows`, and the final
sums/counter describe the trailing incomplete window. -/
theorem feed_scans_spec (opts : ParsedOptions) (init : ℚ) (period : Nat)
    (conv : Nat → ℚ) (scans : List (List Nat)) (s : AggState)
    (hI : 1 ≤ opts.integrate) (hN : 1 ≤ opts.n_chan)
    (hlen : ∀ sc ∈ scans, sc.length = opts.n_chan)
    (hcol : s.col = 0) (his : s.isamples = 0)
    (hbuf : ∀ i, i < opts.n_chan → s.buf i = 0) :
    feed_samples opts init period conv s scans.flatten
      = ({ t := s.t + (scans.length : ℚ) * ((period : ℚ) / 1000000000)
           col := 0
           isamples := if scans.length % opts.integrate.toNat = 0 then 0
             else opts.integrate - ((scans.length % opts.integrate.toNat : ℕ) : Int)
           buf := fun i => if i < opts.n_chan
             then chanSum conv
               (scans.drop (opts.integrate.toNat * (scans.length / opts.integrate.toNat))) i
             else s.buf i
           n := s.n + scans.length },
         refRows opts init conv period s.t scans) := by
  have he0 : (if s.isamples = 0 then opts.integrate else s.isamples) = opts.integrate := by
    rw [his]
    simp
  by_cases hsmall : scans.length < opts.integrate.toNat
  · rw [feed_scans_short opts init period conv scans s opts.integrate hN hlen hcol he0
      (by omega)]
    have hdiv : scans.length / opts.integrate.toNat = 0 := Nat.div_eq_of_lt hsmall
    have hmod : scans.length % opts.integrate.toNat = scans.length :=
      Nat.mod_eq_of_lt hsmall
    refine Prod.ext ?_ ?_
    · refine AggState.ext rfl rfl ?_ ?_ rfl
      · show (if scans.length = 0 then s.isamples else opts.integrate - scans.length) = _
        rw [hmod]
        rcases Nat.eq_zero_or_pos scans.length with h | h
        · simp [h, his]
        · rw [if_neg (by omega), if_neg (by omega)]
      · funext i
        by_cases hi : i < opts.n_chan
        · simp only [if_pos hi, hbuf i hi, zero_add, hdiv, Nat.mul_zero, List.drop_zero]
        · simp only [if_neg hi]
    · show ([] : List Row) = refRows opts init conv period s.t scans
      rw [refRows, hdiv]
      simp
  · push_neg at hsmall
    have hpos : 0 < opts.integrate.toNat := by omega
    have htake : (scans.take opts.integrate.toNat).length = opts.integrate.toNat := by
      rw [List.length_take]
      omega
    have hsplit : scans.flatten
        = (scans.take opts.integrate.toNat).flatten
          ++ (scans.drop opts.integrate.toNat).flatten := by
      rw [← List.flatten_append, List.take_append_drop]
    rw [hsplit, feed_samples_append,
      feed_scans_window opts init period conv (scans.take opts.integrate.toNat) s
        opts.integrate hN (fun sc h => hlen sc (List.mem_of_mem_take h)) hcol he0
        (by rw [htake]; omega) (by omega)]
    rw [feed_scans_spec opts init period conv (scans.drop opts.integrate.toNat)
      ⟨s.t + ((scans.take opts.integrate.toNat).length : ℚ) * ((period : ℚ) / 1000000000),
        0, 0, fun i => if i < opts.n_chan then 0 else s.buf i,
        s.n + (scans.take opts.integrate.toNat).length⟩
      hI hN (fun sc h => hlen sc (List.mem_of_mem_drop h)) rfl rfl
      (fun i hi => by simp [hi])]
    have hlendrop : (scans.drop opts.integrate.toNat).length
        = scans.length - opts.integrate.toNat := List.length_drop _ _
    refine Prod.ext ?_ ?_
    · refine AggState.ext ?_ rfl ?_ ?_ ?_
      · show s.t + ((scans.take opts.integrate.toNat).length : ℚ)
              * ((period : ℚ) / 1000000000)
            + ((scans.drop opts.integrate.toNat).length : ℚ)
              * ((period : ℚ) / 1000000000)
          = s.t + (scans.length : ℚ) * ((period : ℚ) / 1000000000)
        rw [htake, hlendrop]
        rw [Nat.cast_sub hsmall]
        ring
      · show (if (scans.drop opts.integrate.toNat).length % opts.integrate.toNat = 0
              then (0 : Int)
              else opts.integrate
                - (((scans.drop opts.integrate.toNat).length % opts.integrate.toNat : ℕ) : Int))
          = _
        rw [hlendrop, ← Nat.mod_eq_sub_mod hsmall]
      · show (fun i => if i < opts.n_chan
              then chanSum conv ((scans.drop opts.integrate.toNat).drop
                (opts.integrate.toNat
                  * ((scans.drop opts.integrate.toNat).length / opts.integrate.toNat))) i
              else if i < opts.n_chan then 0 else s.buf i)
          = _
        funext i
        by_cases hi : i < opts.n_chan
        · simp only [if_pos hi]
          congr 1
          rw [List.drop_drop, hlendrop]
          congr 1
          rw [Nat.div_eq_sub_div hpos hsmall]
          ring
        · simp only [if_neg hi]
      · show s.n + ((scans.take opts.integrate.toNat).length : Int)
            + ((scans.drop opts.integrate.toNat).length : Int)
          = s.n + (scans.length : Int)
        rw [htake, hlendrop]
        have : opts.integrate.toNat ≤ scans.length := hsmall
        push_cast [Nat.cast_sub this]
        ring
    · show ((if opts.fulltime
              then init + (s.t + (((scans.take opts.integrate.toNat).length : ℚ) - 1)
                * ((period : ℚ) / 1000000000))
              else s.t + (((scans.take opts.integrate.toNat).length : ℚ) - 1)
                * ((period : ℚ) / 1000000000)),
            (List.range opts.n_chan).map
              (fun i => (s.buf i + chanSum conv (scans.take opts.integrate.toNat) i)
                / (opts.integrate : ℚ)))
          :: refRows opts init conv period
               (s.t + ((scans.take opts.integrate.toNat).length : ℚ)
                 * ((period : ℚ) / 1000000000))
               (scans.drop opts.integrate.toNat)
        = refRows opts init conv period s.t scans
      rw [refRows_step opts init conv period s.t scans hI hsmall]
      congr 1
      · refine Prod.ext ?_ ?_
        · show (if opts.fulltime
                then init + (s.t + (((scans.take opts.integrate.toNat).length : ℚ) - 1)
                  * ((period : ℚ) / 1000000000))
                else s.t + (((scans.take opts.integrate.toNat).length : ℚ) - 1)
                  * ((period : ℚ) / 1000000000))
            = _
          rw [htake, integrate_toNat_cast opts hI]
          by_cases hf : opts.fulltime <;> simp [hf]
        · show (List.range opts.n_chan).map
              (fun i => (s.buf i + chanSum conv (scans.take opts.integrate.toNat) i)
                / (opts.integrate : ℚ)) = _
          refine List.map_congr_left ?_
          intro i hi
          rw [List.mem_range] at hi
          rw [hbuf i hi, zero_add]
      · congr 1
        rw [htake, integrate_toNat_cast opts hI]
termination_by scans.length
decreasing_by
  simp only [List.length_drop]
  omega

/-! ## Command-line parsing (`parse_options`) -/

/-- One `getopt`-recognized option occurrence, in command-line order.  Options
taking numeric arguments carry the value produced by the C conversion
(`strtoul` assigned to `int`, or `strtod`); `-d` and `-c` carry their raw
argument strings. -/
inductive CmdOpt where
  | h | v | T
  | d (arg : String)
  | s (v : Int)
  | c (arg : String)
  | a (v : Int)
  | r (v : Int)
  | f (v : ℚ)
  | n (v : Int)
  | I (v : Int)

/-- `strtok(optarg, ",")` iteration: maximal runs of non-comma characters, in
order; empty runs are skipped (as `strtok` does). -/
def strtokCommas (cs : List Char) (acc : List Char) : List String :=
  match cs with
  | [] => match acc with
    | [] => []
    | _ => [String.mk acc.reverse]
  | ch :: rest =>
    if ch = ',' then
      match acc with
      | [] => strtokCommas rest []
      | _ => String.mk acc.reverse :: strtokCommas rest []
    else strtokCommas rest (ch :: acc)

/-- Split an option argument into channel tokens the way the `-c` handler's
`strtok` loop visits them. -/
def tokenize (s : String) : List String := strtokCommas s.toList []

/-- Numeric value of a maximal digit prefix, accumulator style. -/
def digitsToNat : List Char → Nat → Nat
  | [], acc => acc
  | ch :: rest, acc =>
    if '0' ≤ ch ∧ ch ≤ '9' then digitsToNat rest (acc * 10 + (ch.toNat - '0'.toNat))
    else acc

/-- `atoi`: skip leading whitespace, optional sign, then a digit prefix
(overflow is not modelled; channel ids in practice are small). -/
def atoi (s : String) : Int :=
  let cs := s.toList.dropWhile (fun ch => ch = ' ' ∨ ch = '\t' ∨ ch = '\n' ∨ ch = '\r')
  match cs with
  | '-' :: rest => -(digitsToNat rest 0 : Int)
  | '+' :: rest => (digitsToNat rest 0 : Int)
  | _ => (digitsToNat cs 0 : Int)

/-- State of `parse_options` while scanning the option list: the global
`options` struct, the function-scoped counter `n` (which persists across
`-c` occurrences), the `h` flag, and — for auditing the array accesses —
the trace of `options.channel[n] = atoi(pt)` stores as `(index, value)`
pairs.  The C array has only `N_CHANS = 256` slots; a trace entry with
index `≥ 256` is an out-of-bounds store. -/
structure ParseState where
  opts : ParsedOptions
  n : Nat
  h : Bool
  writes : List (Nat × Int)

/-- The inner `strtok` loop of the `-c` case: store each token's `atoi` value
at `channel[n]`, incrementing `n`; after the loop, `options.n_chan = n`. -/
def storeChannels : ParseState → List String → ParseState
  | st, [] => { st with opts := { st.opts with n_chan := st.n } }
  | st, tok :: toks =>
    storeChannels
      { st with
        opts := { st.opts with
          channel := Function.update st.opts.channel st.n (atoi tok) }
        n := st.n + 1
        writes := st.writes ++ [(st.n, atoi tok)] } toks

/-- One iteration of the `getopt` `switch`. -/
def applyOpt (st : ParseState) : CmdOpt → ParseState
  | .h => { st with h := true }
  | .v => { st with opts := { st.opts with verbose := true } }
  | .T => { st with opts := { st.opts with fulltime := true } }
  | .d arg => { st with opts := { st.opts with filename := arg } }
  | .s v => { st with opts := { st.opts with subdevice := v } }
  | .c arg => storeChannels st (tokenize arg)
  | .a v => { st with opts := { st.opts with aref := v } }
  | .r v => { st with opts := { st.opts with range := v } }
  | .f v => { st with opts := { st.opts with freq := v } }
  | .n v => { st with opts := { st.opts with n_scan := if v < 0 then 0 else v } }
  | .I v => { st with opts := { st.opts with integrate := if v ≤ 0 then 1 else v } }

/-- Embeds `parse_options(argc, argv)`: fold the `getopt` loop over the
option occurrences starting from the global defaults with `n = 0`, `h = 0`.
(When `h` is set the program prints help and exits with status 1; the
returned state records the flag.) -/
def parse_options (args : List CmdOpt) : ParseState :=
  args.foldl applyOpt { opts := defaultOptions, n := 0, h := false, writes := [] }

/-- All channel tokens contributed by `-c` occurrences, in order. -/
def cTokens : List CmdOpt → List String
  | [] => []
  | .c arg :: rest => tokenize arg ++ cTokens rest
  | _ :: rest => cTokens rest

/-- Whether a `-c` option occurs at all. -/
def hasCopt : List CmdOpt → Bool
  | [] => false
  | .c _ :: _ => true
  | _ :: rest => hasCopt rest

theorem storeChannels_n (toks : List String) : ∀ st : ParseState,
    (storeChannels st toks).n = st.n + toks.length := by
  induction toks with
  | nil => intro st; simp [storeChannels]
  | cons tok toks ih =>
    intro st
    simp only [storeChannels, ih, List.length_cons]
    omega

theorem storeChannels_n_chan (toks : List String) : ∀ st : ParseState,
    (storeChannels st toks).opts.n_chan = st.n + toks.length := by
  induction toks with
  | nil => intro st; simp [storeChannels]
  | cons tok toks ih =>
    intro st
    simp only [storeChannels, ih, List.length_cons]
    omega

theorem storeChannels_channel (toks : List String) : ∀ (st : ParseState) (i : Nat),
    (storeChannels st toks).opts.channel i =
      if st.n ≤ i ∧ i < st.n + toks.length
      then atoi (toks.getD (i - st.n) "") else st.opts.channel i := by
  induction toks with
  | nil =>
    intro st i
    simp only [storeChannels, List.length_nil, Nat.add_zero]
    rw [if_neg (by omega)]
  | cons tok toks ih =>
    intro st i
    simp only [storeChannels, List.length_cons]
    rw [ih]
    dsimp only
    rcases Nat.lt_trichotomy i st.n with hi | hi | hi
    · rw [if_neg (by omega), if_neg (by omega)]
      simp [Function.update, show i ≠ st.n by omega]
    · subst hi
      rw [if_neg (by omega), if_pos (by omega)]
      simp [Function.update]
    · by_cases hj : i < st.n + (toks.length + 1)
      · rw [if_pos (by omega), if_pos (by omega)]
        have : i - st.n = (i - (st.n + 1)) + 1 := by omega
        rw [this]
        simp
      · rw [if_neg (by omega), if_neg (by omega)]
        simp [Function.update, show i ≠ st.n by omega]

theorem storeChannels_integrate (toks : List String) : ∀ st : ParseState,
    (storeChannels st toks).opts.integrate = st.opts.integrate := by
  induction toks with
  | nil => intro st; simp [storeChannels]
  | cons tok toks ih => intro st; simp [storeChannels, ih]

theorem cTokens_of_not_hasCopt : ∀ args : List CmdOpt,
    hasCopt args = false → cTokens args = [] := by
  intro args
  induction args with
  | nil => intro _; rfl
  | cons o rest ih =>
    cases o <;> simp [hasCopt, cTokens] <;> exact ih

/-- The `getopt` loop's effect on `n`, `n_chan` and the channel array, for
any starting state: every `-c` occurrence appends its tokens after the
channels parsed so far, because the counter `n` persists across occurrences
and is never reset. -/
theorem parse_channels_aux : ∀ (args : List CmdOpt) (st : ParseState),
    (args.foldl applyOpt st).n = st.n + (cTokens args).length
  ∧ (args.foldl applyOpt st).opts.n_chan =
      (if hasCopt args then st.n + (cTokens args).length else st.opts.n_chan)
  ∧ ∀ i, (args.foldl applyOpt st).opts.channel i =
      if st.n ≤ i ∧ i < st.n + (cTokens args).length
      then atoi ((cTokens args).getD (i - st.n) "")
      else st.opts.channel i := by
  intro args
  induction args with
  | nil =>
    intro st
    refine ⟨by simp [cTokens], by simp [cTokens, hasCopt], ?_⟩
    intro i
    have hno : ¬(st.n ≤ i ∧ i < st.n + (cTokens ([] : List CmdOpt)).length) := by
      simp only [cTokens, List.length_nil, Nat.add_zero]
      omega
    rw [if_neg hno]
    rfl
  | cons o rest ih =>
    intro st
    cases o with
    | c arg =>
      obtain ⟨ihn, ihchan, ihc⟩ := ih (storeChannels st (tokenize arg))
      have hn := storeChannels_n (tokenize arg) st
      have hnc := storeChannels_n_chan (tokenize arg) st
      have hc := storeChannels_channel (tokenize arg) st
      refine ⟨?_, ?_, ?_⟩
      · simp only [List.foldl_cons, applyOpt, ihn, hn, cTokens, List.length_append]
        omega
      · simp only [List.foldl_cons, applyOpt, ihchan, hasCopt, cTokens,
          List.length_append, if_true]
        by_cases hrest : hasCopt rest
        · rw [if_pos hrest, hn]
          omega
        · rw [if_neg hrest, hnc,
            cTokens_of_not_hasCopt rest (by simpa using hrest)]
          simp
      · intro i
        simp only [List.foldl_cons, applyOpt, cTokens, List.length_append]
        rw [ihc i, hn, hc i]
        set tl := (tokenize arg).length with htl
        set rl := (cTokens rest).length with hrl
        rcases Nat.lt_trichotomy i (st.n + tl) with hi | hi | hi
        · by_cases hlo : st.n ≤ i
          · rw [if_neg (by omega), if_pos (by omega), if_pos (by omega),
              List.getD_append _ _ _ _ (by omega)]
          · rw [if_neg (by omega), if_neg (by omega), if_neg (by omega)]
        · by_cases hz : 0 < rl
          · rw [if_pos (by omega), if_pos (by omega),
              List.getD_append_right _ _ _ _ (by omega)]
            have harg : i - (st.n + tl) = i - st.n - tl := by omega
            rw [harg]
          · rw [if_neg (by omega), if_neg (by omega), if_neg (by omega)]
        · by_cases hhi : i < st.n + (tl + rl)
          · rw [if_pos (by omega), if_pos (by omega),
              List.getD_append_right _ _ _ _ (by omega)]
            have harg : i - (st.n + tl) = i - st.n - tl := by omega
            rw [harg]
          · rw [if_neg (by omega), if_neg (by omega), if_neg (by omega)]
    | h =>
      obtain ⟨ihn, ihchan, ihc⟩ := ih { st with h := true }
      exact ⟨by simpa [applyOpt, cTokens] using ihn,
        by simpa [applyOpt, cTokens, hasCopt] using ihchan,
        fun i => by simpa [applyOpt, cTokens] using ihc i⟩
    | v =>
      obtain ⟨ihn, ihchan, ihc⟩ := ih { st with opts := { st.opts with verbose := true } }
      exact ⟨by simpa [applyOpt, cTokens] using ihn,
        by simpa [applyOpt, cTokens, hasCopt] using ihchan,
        fun i => by simpa [applyOpt, cTokens] using ihc i⟩
    | T =>
      obtain ⟨ihn, ihchan, ihc⟩ := ih { st with opts := { st.opts with fulltime := true } }
      exact ⟨by simpa [applyOpt, cTokens] using ihn,
        by simpa [applyOpt, cTokens, hasCopt] using ihchan,
        fun i => by simpa [applyOpt, cTokens] using ihc i⟩
    | d arg =>
      obtain ⟨ihn, ihchan, ihc⟩ := ih { st with opts := { st.opts with filename := arg } }
      exact ⟨by simpa [applyOpt, cTokens] using ihn,
        by simpa [applyOpt, cTokens, hasCopt] using ihchan,
        fun i => by simpa [applyOpt, cTokens] using ihc i⟩
    | s vv =>
      obtain ⟨ihn, ihchan, ihc⟩ := ih { st with opts := { st.opts with subdevice := vv } }
      exact ⟨by simpa [applyOpt, cTokens] using ihn,
        by simpa [applyOpt, cTokens, hasCopt] using ihchan,
        fun i => by simpa [applyOpt, cTokens] using ihc i⟩
    | a vv =>
      obtain ⟨ihn, ihchan, ihc⟩ := ih { st with opts := { st.opts with aref := vv } }
      exact ⟨by simpa [applyOpt, cTokens] using ihn,
        by simpa [applyOpt, cTokens, hasCopt] using ihchan,
        fun i => by simpa [applyOpt, cTokens] using ihc i⟩
    | r vv =>
      obtain ⟨ihn, ihchan, ihc⟩ := ih { st with opts := { st.opts with range := vv } }
      exact ⟨by simpa [applyOpt, cTokens] using ihn,
        by simpa [applyOpt, cTokens, hasCopt] using ihchan,
        fun i => by simpa [applyOpt, cTokens] using ihc i⟩
    | f vv =>
      obtain ⟨ihn, ihchan, ihc⟩ := ih { st with opts := { st.opts with freq := vv } }
      exact ⟨by simpa [applyOpt, cTokens] using ihn,
        by simpa [applyOpt, cTokens, hasCopt] using ihchan,
        fun i => by simpa [applyOpt, cTokens] using ihc i⟩
    | n vv =>
      obtain ⟨ihn, ihchan, ihc⟩ :=
        ih { st with opts := { st.opts with n_scan := if vv < 0 then 0 else vv } }
      exact ⟨by simpa [applyOpt, cTokens] using ihn,
        by simpa [applyOpt, cTokens, hasCopt] using ihchan,
        fun i => by simpa [applyOpt, cTokens] using ihc i⟩
    | I vv =>
      obtain ⟨ihn, ihchan, ihc⟩ :=
        ih { st with opts := { st.opts with integrate := if vv ≤ 0 then 1 else vv } }
      exact ⟨by simpa [applyOpt, cTokens] using ihn,
        by simpa [applyOpt, cTokens, hasCopt] using ihchan,
        fun i => by simpa [applyOpt, cTokens] using ihc i⟩

/-- Every reachable `options.integrate` value is at least 1: the default is 1
and the `-I` handler coerces values `≤ 0` to 1. -/
theorem parse_integrate_aux : ∀ (args : List CmdOpt) (st : ParseState),
    1 ≤ st.opts.integrate → 1 ≤ (args.foldl applyOpt st).opts.integrate := by
  intro args
  induction args with
  | nil => intro st h; simpa using h
  | cons o rest ih =>
    intro st h
    cases o with
    | c arg =>
      refine ih _ ?_
      show 1 ≤ (storeChannels st (tokenize arg)).opts.integrate
      rw [storeChannels_integrate]
      exact h
    | I vv =>
      refine ih _ ?_
      show 1 ≤ (if vv ≤ 0 then 1 else vv)
      split <;> omega
    | h => exact ih _ h
    | v => exact ih _ h
    | T => exact ih _ h
    | d arg => exact ih _ h
    | s vv => exact ih _ h
    | a vv => exact ih _ h
    | r vv => exact ih _ h
    | f vv => exact ih _ h
    | n vv => exact ih _ h

/-! ## Device interaction: command negotiation and the acquisition loop -/

/-- The fields of `comedi_cmd` that this program reads or writes. -/
structure ComediCmd where
  chanlist_len : Nat
  stop_src : Nat
  stop_arg : Int
  scan_begin_arg : Nat
deriving DecidableEq

/-- `CR_PACK(chan, rng, aref)` from comedi.h:
`((aref & 0x3) << 24) | ((rng & 0xff) << 16) | chan`. -/
def CR_PACK (chan rng aref : Nat) : Nat :=
  ((aref % 4) <<< 24) ||| ((rng % 256) <<< 16) ||| chan

/-- How the loop exited: `front < back` (overrun break), a failed
`comedi_mark_buffer_read` (acknowledge break), or the stop-count test in the
idle branch. -/
inductive LoopExit where
  | overrun
  | ackFailed
  | stopReached
deriving DecidableEq

/-- Which loop-exit paths print an error message before breaking: only the
`comedi_mark_buffer_read` failure calls `comedi_perror`; the `front < back`
break and the stop-count break print nothing. -/
def loop_break_reported : LoopExit → Bool
  | .ackFailed => true
  | _ => false

/-- Results of every external call `main` makes, supplied by the environment:
device opening, subdevice flags, calibration lookups, buffer size and mmap,
the generic timed command and the two `comedi_command_test` calls (with the
device-adjusted command they leave behind), `clock_gettime`, `comedi_command`,
and per-iteration results of `comedi_get_buffer_contents` /
`comedi_mark_buffer_read` plus the mapped buffer contents and the physical
value `comedi_to_physical` assigns to each raw code. -/
structure Env where
  openOk : Bool
  subdevFlags : Int
  parseCalOk : Bool
  softcalOk : Bool
  hardcalOk : Bool
  bufSize : Nat
  mmapOk : Bool
  genericTimedRet : Int
  genericCmd : ComediCmd
  test1 : Int
  test2 : Int
  testedCmd : ComediCmd
  clockOk : Bool
  clockInit : ℚ
  commandOk : Bool
  contents : Nat → Int
  readAt : Int → Nat
  markOk : Nat → Bool
  to_physical : Nat → ℚ

/-- Embeds `get_converter(device, &converter, flags)`: choose software or
hardware calibration by `flags & SDF_SOFT_CALIBRATED`; on the software path a
calibration-file parse failure or converter-lookup failure returns `-1`
(modelled as `.error`), likewise a hardware-converter failure.  On success
the converter requested is the one for
`(options.subdevice, options.channel[0], options.range)` — both branches pass
`options.channel[0]`, never the channel of a later scan position — so the
embedding returns that request key. -/
def get_converter (opts : ParsedOptions) (env : Env) (flags : Int) :
    Except Unit (Int × Int × Int) :=
  if flags.toNat &&& SDF_SOFT_CALIBRATED ≠ 0 then
    if ¬env.parseCalOk then .error ()
    else if ¬env.softcalOk then .error ()
    else .ok (opts.subdevice, opts.channel 0, opts.range)
  else
    if ¬env.hardcalOk then .error ()
    else .ok (opts.subdevice, opts.channel 0, opts.range)

/-- Modelled from the spec: the claim's per-sample converter key — "distinct
channels may use distinct converters keyed by (subdevice, channel, range)",
the channel being the one at the sample's position in the scan.  This is the
spec's wording, for comparison with what `get_converter` actually requests. -/
def converter_key_claim (opts : ParsedOptions) (pos : Nat) : Int × Int × Int :=
  (opts.subdevice, opts.channel pos, opts.range)

/-- Embeds `prepare_cmd_lib`: ask the library for a generic timed command
(its result, and the command it fills in, come from the environment); on
failure return the error code with the zero-filled command untouched — `main`
ignores this return value.  On success override `chanlist_len`, `stop_src`
(`TRIG_COUNT` when `n_scan > 0`, else `TRIG_NONE`) and `stop_arg`. -/
def prepare_cmd_lib (opts : ParsedOptions) (env : Env) (_scan_period_nanosec : Nat) :
    Int × ComediCmd :=
  if env.genericTimedRet < 0 then
    (env.genericTimedRet, { chanlist_len := 0, stop_src := 0, stop_arg := 0
                            scan_begin_arg := 0 })
  else
    (0, { env.genericCmd with
          chanlist_len := opts.n_chan
          stop_src := if opts.n_scan > 0 then TRIG_COUNT else TRIG_NONE
          stop_arg := opts.n_scan })

/-- Outcome of `double_check_cmd`: either the process exits with status 1, or
the (possibly device-adjusted) `cmd->scan_begin_arg` is returned for use as
the real period. -/
inductive CheckResult where
  | fatal
  | ok (scan_begin_arg : Nat)
deriving DecidableEq

/-- Embeds `double_check_cmd(dev, &cmd)`: `comedi_command_test` is called
twice; a negative return from either call is fatal (`exit(1)`), and a
*nonzero* return from the second call — the command still needed adjustment —
is also fatal (`exit(1)` after "error preparing command").  Only a clean `0`
from the second test lets the command through, returning the negotiated
`cmd->scan_begin_arg`. -/
def double_check_cmd (t1 t2 : Int) (cmd : ComediCmd) : CheckResult :=
  if t1 < 0 then .fatal
  else if t2 < 0 then .fatal
  else if t2 ≠ 0 then .fatal
  else .ok cmd.scan_begin_arg

/-- The loop-local state of `main`'s read loop: the cumulative byte counters
`front` (produced) and `back` (consumed), the `print_datum` state (with the
scan counter `n`), the number of `comedi_get_buffer_contents` polls made so
far, the number of `comedi_mark_buffer_read` acknowledgements made, and the
total microseconds spent in `usleep`. -/
@[ext]
structure LoopSt where
  front : Int
  back : Int
  agg : AggState
  polls : Nat
  acks : Nat
  sleptUs : Nat

/-- Result of running the read loop with bounded fuel: either the loop hit a
`break` (with the reason, final state and rows printed), or the fuel ran out
with the loop still going. -/
inductive LoopResult where
  | finished (reason : LoopExit) (st : LoopSt) (rows : List Row)
  | fuelOut (st : LoopSt) (rows : List Row)

/-- The raw samples the inner `for` loop decodes from the mapped buffer for
byte range `[back, front)`: one sample every `bps` bytes, read at offset
`i % size` (`bps` is 4 for `SDF_LSAMPL` subdevices, else 2). -/
def range_samples (env : Env) (bps : Nat) (back front : Int) : List Nat :=
  (List.range (((front - back).toNat + bps - 1) / bps)).map
    (fun j => env.readAt ((back + (j : Int) * (bps : Int)) % (env.bufSize : Int)))

/-- Embeds the `while(1)` read loop of `main`, one iteration per unit of
fuel: add `comedi_get_buffer_contents` to `front`; `break` if
`front < back`; if `front == back`, `break` when the stop count is reached,
else `usleep(10000)` and poll again; otherwise decode and print every sample
in `[back, front)`, then `comedi_mark_buffer_read(front - back)` — on its
failure report and `break`, on success set `back = front` and continue. -/
def runLoop (opts : ParsedOptions) (env : Env) (period : Nat) (bps : Nat)
    (init : ℚ) : Nat → LoopSt → List Row → LoopResult
  | 0, st, rows => .fuelOut st rows
  | fuel + 1, st, rows =>
    let front := st.front + env.contents st.polls
    let st := { st with front := front, polls := st.polls + 1 }
    if front < st.back then
      .finished .overrun st rows
    else if front = st.back then
      if opts.n_scan > 0 ∧ st.agg.n ≥ opts.n_scan then
        .finished .stopReached st rows
      else
        runLoop opts env period bps init fuel
          { st with sleptUs := st.sleptUs + 10000 } rows
    else
      let fed := feed_samples opts init period (env.to_physical)
        st.agg (range_samples env bps st.back front)
      if env.markOk st.acks then
        runLoop opts env period bps init fuel
          { st with back := front, agg := fed.1, acks := st.acks + 1 }
          (rows ++ fed.2)
      else
        .finished .ackFailed { st with agg := fed.1, acks := st.acks + 1 }
          (rows ++ fed.2)

/-- What a run of `main` did: its exit status (`none` while the loop is still
running when the fuel ends), whether `comedi_command` armed the command,
how many buffer polls were made, the rows printed, the loop's break reason,
and whether the exit path printed an error report. -/
structure MainResult where
  exit : Option Nat
  armed : Bool
  polls : Nat
  rows : List Row
  reason : Option LoopExit
  reported : Bool

/-- Embeds `main` after `parse_options`: open the device (failure:
`exit(1)`), query subdevice flags (negative: `exit(1)`), pick the sample
width, obtain the calibration converter (failure: `exit(1)`), get the buffer
size and mmap it (failure: `exit(1)`), build the command with
`prepare_cmd_lib` (return value ignored), negotiate it with
`double_check_cmd` (fatal: `exit(1)` — before `comedi_command` and before
any poll), read the start time (failure: `exit(1)`), arm the command with
`comedi_command` (negative: `exit(1)`), then run the read loop; after any
loop `break` the program falls through to `comedi_close` and `return 0`. -/
def mainRun (opts : ParsedOptions) (env : Env) (fuel : Nat) : MainResult :=
  if ¬env.openOk then ⟨some 1, false, 0, [], none, true⟩
  else if env.subdevFlags < 0 then ⟨some 1, false, 0, [], none, true⟩
  else
    let bps := if env.subdevFlags.toNat &&& SDF_LSAMPL ≠ 0 then 4 else 2
    match get_converter opts env env.subdevFlags with
    | .error _ => ⟨some 1, false, 0, [], none, true⟩
    | .ok _ =>
      if ¬env.mmapOk then ⟨some 1, false, 0, [], none, true⟩
      else
        let _cmd := prepare_cmd_lib opts env
          (((1000000000 : ℚ) / opts.freq).floor.toNat)
        match double_check_cmd env.test1 env.test2 env.testedCmd with
        | .fatal => ⟨some 1, false, 0, [], none, true⟩
        | .ok real_period =>
          if ¬env.clockOk then ⟨some 1, false, 0, [], none, true⟩
          else if ¬env.commandOk then ⟨some 1, false, 0, [], none, true⟩
          else
            match runLoop opts env real_period bps env.clockInit fuel
              ⟨0, 0, initAggState, 0, 0, 0⟩ [] with
            | .finished r st rows =>
              ⟨some 0, true, st.polls, rows, some r, loop_break_reported r⟩
            | .fuelOut st rows => ⟨none, true, st.polls, rows, none, false⟩

/-! ## Claim theorems -/

theorem range_getD_map {α : Type} (g : Nat → α) :
    ∀ sc : List Nat, (List.range sc.length).map (fun i => g (sc.getD i 0)) = sc.map g := by
  intro sc
  induction sc with
  | nil => simp
  | cons x xs ih =>
    rw [List.length_cons, List.range_succ_eq_map, List.map_cons, List.map_map]
    simp only [List.getD_cons_zero, List.map_cons]
    rw [← ih]
    refine congrArg (List.cons (g x)) ?_
    refine List.map_congr_left ?_
    intro j _
    simp

/-- C3: for a configuration with stop-count `K > 0` and integration depth
`I ≥ 1`, feeding exactly `K` complete scans through the aggregator emits
exactly `⌊K / I⌋` rows (so exactly `K / I` rows when `I` divides `K`,
`K / I` being `Nat` division). -/
theorem c3_row_count (opts : ParsedOptions) (init : ℚ) (period : Nat)
    (conv : Nat → ℚ) (scans : List (List Nat)) (K I : Nat)
    (_hstop : opts.n_scan = (K : Int)) (_hK : 0 < K)
    (hint : opts.integrate = (I : Int)) (hI : 1 ≤ I)
    (hN : 1 ≤ opts.n_chan) (hlen : ∀ sc ∈ scans, sc.length = opts.n_chan)
    (hnum : scans.length = K) :
    (feed_samples opts init period conv initAggState scans.flatten).2.length = K / I := by
  rw [feed_scans_spec opts init period conv scans initAggState
    (by omega) hN hlen rfl rfl (fun i _ => rfl)]
  simp only [refRows, List.length_map, List.length_range]
  rw [hnum, hint, Int.toNat_natCast]

/-- C7: whenever an integration window of depth `I` completes, the emitted
row's value for each channel is that channel's accumulated sum over the
window divided by `I` (its mean); after a whole number of windows every
channel's sum is back to zero and the counter is `0`, which the next
`print_datum` call re-seeds to `I` (the `if (!isamples)` at its top). -/
theorem c7_integration_mean (opts : ParsedOptions) (init : ℚ) (period : Nat)
    (conv : Nat → ℚ) (scans : List (List Nat)) (I : Nat)
    (hint : opts.integrate = (I : Int)) (hI : 1 ≤ I)
    (hN : 1 ≤ opts.n_chan) (hlen : ∀ sc ∈ scans, sc.length = opts.n_chan) :
    (∀ j : Nat,
        j < (feed_samples opts init period conv initAggState scans.flatten).2.length →
        ((feed_samples opts init period conv initAggState scans.flatten).2.getD
            j (0, [])).2
          = (List.range opts.n_chan).map (fun i =>
              chanSum conv ((scans.drop (j * I)).take I) i / (I : ℚ)))
    ∧ (I ∣ scans.length →
        (∀ i, i < opts.n_chan →
          (feed_samples opts init period conv initAggState scans.flatten).1.buf i = 0)
        ∧ (feed_samples opts init period conv initAggState scans.flatten).1.isamples = 0
        ∧ (if (feed_samples opts init period conv initAggState scans.flatten).1.isamples = 0
            then opts.integrate
            else (feed_samples opts init period conv initAggState
              scans.flatten).1.isamples) = (I : Int)) := by
  rw [feed_scans_spec opts init period conv scans initAggState
    (by omega) hN hlen rfl rfl (fun i _ => rfl)]
  dsimp only
  constructor
  · intro j hj
    simp only [refRows, List.length_map, List.length_range] at hj
    rw [List.getD_eq_getElem _ _ (by simpa [refRows] using hj)]
    simp only [refRows, List.getElem_map, List.getElem_range, hint, Int.toNat_natCast,
      Int.cast_natCast]
  · intro hdvd
    have hmod : scans.length % opts.integrate.toNat = 0 := by
      rw [hint, Int.toNat_natCast]
      omega
    have hcancel : opts.integrate.toNat * (scans.length / opts.integrate.toNat)
        = scans.length := by
      rw [hint, Int.toNat_natCast]
      exact Nat.mul_div_cancel' hdvd
    refine ⟨?_, ?_, ?_⟩
    · intro i hi
      simp only [hcancel, List.drop_length, if_pos hi, chanSum_nil]
    · simp only [if_pos hmod]
    · have hmod2 : scans.length % I = 0 := by omega
      simp only [hint, Int.toNat_natCast, if_pos hmod2]
      simp

/-- C8: with integration depth 1 and the identity converter, the emitted
row values reproduce the raw samples exactly, scan by scan, in channel
order, unscaled. -/
theorem c8_identity_roundtrip (opts : ParsedOptions) (init : ℚ) (period : Nat)
    (scans : List (List Nat))
    (hint : opts.integrate = 1)
    (hN : 1 ≤ opts.n_chan) (hlen : ∀ sc ∈ scans, sc.length = opts.n_chan) :
    (feed_samples opts init period (fun r => (r : ℚ)) initAggState
        scans.flatten).2.map Prod.snd
      = scans.map (fun sc => sc.map (fun (r : ℕ) => (r : ℚ))) := by
  rw [feed_scans_spec opts init period (fun r => (r : ℚ)) scans initAggState
    (by omega) hN hlen rfl rfl (fun i _ => rfl)]
  simp only [refRows, hint, List.map_map]
  refine List.ext_getElem ?_ ?_
  · simp
  · intro j h1 h2
    simp only [List.length_map, List.length_range] at h1
    rw [List.getElem_map, List.getElem_map, List.getElem_range]
    simp only [Function.comp]
    have hjlen : j < scans.length := by
      simpa using h2
    have hwin : (scans.drop (j * (1 : ℤ).toNat)).take (1 : ℤ).toNat
        = [scans[j]] := by
      have h1 : (1 : ℤ).toNat = 1 := rfl
      rw [h1, Nat.mul_one, List.take_one_drop_eq_of_lt_length hjlen]
      simp
    rw [hwin]
    have hsc : (scans[j]).length = opts.n_chan :=
      hlen _ (List.getElem_mem hjlen)
    rw [← hsc, ← range_getD_map (fun (r : ℕ) => (r : ℚ)) (scans[j])]
    refine List.map_congr_left ?_
    intro i _
    simp [chanSum]

/-- C5: in relative-timestamp mode (`-T` absent) the timestamps of emitted
rows are non-decreasing, consecutive rows differ by exactly
`integration_depth * scan_period_seconds` for the period the aggregator is
given, the elapsed-time accumulator `t` advances by that period once per
completed scan whether or not the scan emitted a row, and the period
`double_check_cmd` hands to the loop is the negotiated `cmd->scan_begin_arg`
left after the two command tests, not the originally requested one. -/
theorem c5_timestamps (opts : ParsedOptions) (init : ℚ) (period : Nat)
    (conv : Nat → ℚ) (scans : List (List Nat)) (I : Nat)
    (hint : opts.integrate = (I : Int)) (hI : 1 ≤ I)
    (hft : opts.fulltime = false)
    (hN : 1 ≤ opts.n_chan) (hlen : ∀ sc ∈ scans, sc.length = opts.n_chan) :
    (∀ j : Nat,
        j + 1 < (feed_samples opts init period conv initAggState scans.flatten).2.length →
        ((feed_samples opts init period conv initAggState scans.flatten).2.getD
            (j + 1) (0, [])).1
          - ((feed_samples opts init period conv initAggState scans.flatten).2.getD
              j (0, [])).1
          = (I : ℚ) * ((period : ℚ) / 1000000000))
    ∧ (∀ j : Nat,
        j + 1 < (feed_samples opts init period conv initAggState scans.flatten).2.length →
        ((feed_samples opts init period conv initAggState scans.flatten).2.getD
            j (0, [])).1
          ≤ ((feed_samples opts init period conv initAggState scans.flatten).2.getD
              (j + 1) (0, [])).1)
    ∧ (feed_samples opts init period conv initAggState scans.flatten).1.t
        = (scans.length : ℚ) * ((period : ℚ) / 1000000000)
    ∧ (∀ t1 t2 cmd p, double_check_cmd t1 t2 cmd = CheckResult.ok p →
        p = cmd.scan_begin_arg) := by
  rw [feed_scans_spec opts init period conv scans initAggState
    (by omega) hN hlen rfl rfl (fun i _ => rfl)]
  dsimp only
  have hlen' : (refRows opts init conv period initAggState.t scans).length
      = scans.length / opts.integrate.toNat := by
    simp [refRows]
  have hget : ∀ j : Nat, j < scans.length / opts.integrate.toNat →
      (refRows opts init conv period initAggState.t scans).getD j (0, [])
        = ((if opts.fulltime then init else 0)
             + (initAggState.t
                 + (((j : ℚ) + 1) * (opts.integrate : ℚ) - 1)
                   * ((period : ℚ) / 1000000000)),
           (List.range opts.n_chan).map (fun i =>
              chanSum conv ((scans.drop (j * opts.integrate.toNat)).take
                opts.integrate.toNat) i / (opts.integrate : ℚ))) := by
    intro j hj
    rw [List.getD_eq_getElem _ _ (by rw [hlen']; exact hj)]
    simp only [refRows, List.getElem_map, List.getElem_range]
  have hdiff : ∀ j : Nat,
      j + 1 < (refRows opts init conv period initAggState.t scans).length →
      ((refRows opts init conv period initAggState.t scans).getD (j + 1) (0, [])).1
        - ((refRows opts init conv period initAggState.t scans).getD j (0, [])).1
        = (I : ℚ) * ((period : ℚ) / 1000000000) := by
    intro j hj
    rw [hlen'] at hj
    rw [hget (j + 1) hj, hget j (by omega)]
    simp only [hft, if_neg Bool.false_ne_true, hint, Int.cast_natCast]
    push_cast
    ring
  refine ⟨hdiff, ?_, ?_, ?_⟩
  · intro j hj
    have h := hdiff j hj
    have hpos : (0 : ℚ) ≤ (I : ℚ) * ((period : ℚ) / 1000000000) := by positivity
    linarith
  · simp [initAggState]
  · intro t1 t2 cmd p h
    unfold double_check_cmd at h
    split_ifs at h
    cases h
    rfl

/-- C9: while `produced == consumed` (a poll reports zero new bytes) and the
stop condition is not met, any number `m` of repeated polls leaves the loop
state unchanged apart from the poll counter and the accumulated bounded
back-off sleep (`usleep(10000)` per poll): `back` does not advance, no row
is emitted, and the loop neither breaks nor errors. -/
theorem c9_idle_polls (opts : ParsedOptions) (env : Env) (period bps : Nat)
    (init : ℚ) (m : Nat) (st : LoopSt) (rows : List Row)
    (hfb : st.front = st.back)
    (hc : ∀ j, j < m → env.contents (st.polls + j) = 0)
    (hstop : ¬(opts.n_scan > 0 ∧ st.agg.n ≥ opts.n_scan)) :
    runLoop opts env period bps init m st rows
      = LoopResult.fuelOut
          { st with polls := st.polls + m, sleptUs := st.sleptUs + 10000 * m }
          rows := by
  induction m generalizing st with
  | zero => rfl
  | succ m ih =>
    have h0 : env.contents st.polls = 0 := hc 0 (by omega)
    rw [runLoop]
    dsimp only
    rw [h0, add_zero, if_neg (by omega), if_pos hfb, if_neg hstop]
    rw [ih ⟨st.front, st.back, st.agg, st.polls + 1, st.acks, st.sleptUs + 10000⟩
      hfb
      (fun j hj => by
        have h := hc (j + 1) (by omega)
        rwa [show st.polls + (j + 1) = st.polls + 1 + j by omega] at h)
      hstop]
    congr 1
    refine LoopSt.ext rfl rfl rfl ?_ rfl ?_ <;> dsimp only <;> omega

/-- C6: if the second `comedi_command_test` call still reports a nonzero
result (the command was adjusted again, or the test itself failed), `main`
exits with status 1 without ever calling `comedi_command` and without a
single poll of the ring buffer. -/
theorem c6_rejected_never_armed (opts : ParsedOptions) (env : Env) (fuel : Nat)
    (h2 : env.test2 ≠ 0) :
    (mainRun opts env fuel).armed = false
      ∧ (mainRun opts env fuel).polls = 0
      ∧ (mainRun opts env fuel).exit = some 1 := by
  have hfatal : double_check_cmd env.test1 env.test2 env.testedCmd
      = CheckResult.fatal := by
    unfold double_check_cmd
    by_cases a : env.test1 < 0
    · rw [if_pos a]
    · rw [if_neg a]
      by_cases b : env.test2 < 0
      · rw [if_pos b]
      · rw [if_neg b, if_pos h2]
  unfold mainRun
  rw [hfatal]
  rcases hgc : get_converter opts env env.subdevFlags with u | k <;>
    split_ifs <;> simp [hgc]

/-- Every run of `main` either stops with the loop still running (no break
reason) or, once the loop breaks for any reason, returns exit status 0 with
the reporting determined solely by the break path. -/
theorem mainRun_reason_spec (opts : ParsedOptions) (env : Env) (fuel : Nat) :
    (mainRun opts env fuel).reason = none
      ∨ ∃ r, (mainRun opts env fuel).reason = some r
          ∧ (mainRun opts env fuel).exit = some 0
          ∧ (mainRun opts env fuel).reported = loop_break_reported r := by
  unfold mainRun
  split_ifs <;> try (left; rfl)
  all_goals try (split <;> try (left; rfl))
  all_goals try (split <;> try (left; rfl))
  all_goals try dsimp only
  all_goals try (split <;> try (left; rfl))
  all_goals exact Or.inr ⟨_, rfl, rfl, rfl⟩

/-- C1 (amended): when the read loop breaks — in particular on overrun
(`front < back`) or on a failed `comedi_mark_buffer_read` — `main` falls
through to `comedi_close` and returns 0: the exit status is 0, not 1, and
only the acknowledge failure prints an error report (`comedi_perror`); the
overrun break is silent. -/
theorem c1_loop_exit_status (opts : ParsedOptions) (env : Env) (fuel : Nat)
    (r : LoopExit) (hr : (mainRun opts env fuel).reason = some r)
    (_hnr : r ≠ LoopExit.stopReached) :
    (mainRun opts env fuel).exit = some 0
      ∧ ((mainRun opts env fuel).reported = true ↔ r = LoopExit.ackFailed) := by
  rcases mainRun_reason_spec opts env fuel with h | ⟨r2, h1, h2, h3⟩
  · rw [h] at hr
    cases hr
  · rw [h1] at hr
    injection hr with h4
    subst h4
    refine ⟨h2, ?_⟩
    rw [h3]
    cases r2 <;> simp [loop_break_reported]

/-- A concrete healthy environment in which every setup call succeeds and
the first `comedi_get_buffer_contents` call returns `-1`, driving `front`
below `back` at the first poll. -/
def envC1 : Env :=
  { openOk := true, subdevFlags := 0, parseCalOk := true, softcalOk := true
    hardcalOk := true, bufSize := 64, mmapOk := true, genericTimedRet := 0
    genericCmd := ⟨1, 0, 0, 100000⟩, test1 := 0, test2 := 0
    testedCmd := ⟨1, 0, 0, 100000⟩, clockOk := true, clockInit := 0
    commandOk := true, contents := fun _ => -1, readAt := fun _ => 0
    markOk := fun _ => true, to_physical := fun r => (r : ℚ) }

/-- C1 (counterexample): a run whose first poll makes the produced counter
fall below the consumed counter terminates the loop with the overrun break,
but the process exits with status 0 — not 1 — and reports nothing, contrary
to the claim. -/
theorem c1_counterexample :
    (mainRun defaultOptions envC1 1).reason = some LoopExit.overrun
      ∧ (mainRun defaultOptions envC1 1).exit = some 0
      ∧ (mainRun defaultOptions envC1 1).exit ≠ some 1
      ∧ (mainRun defaultOptions envC1 1).reported = false := by
  decide

theorem c1_loop_exit_status_witness :
    (mainRun defaultOptions envC1 1).reason = some LoopExit.overrun
      ∧ LoopExit.overrun ≠ LoopExit.stopReached
      ∧ ((mainRun defaultOptions envC1 1).exit = some 0
          ∧ ((mainRun defaultOptions envC1 1).reported = true
              ↔ LoopExit.overrun = LoopExit.ackFailed)) :=
  ⟨by decide, by decide,
    c1_loop_exit_status defaultOptions envC1 1 LoopExit.overrun (by decide) (by decide)⟩

/-- C2 (counterexample): with channel list `0,1`, the converter obtained by
`get_converter` is keyed by `channel[0]` — the key the claim assigns to the
sample at scan position 1 (namely `(subdevice, channel[1], range)`) differs
from the one key the program ever requests. -/
theorem c2_counterexample :
    get_converter (parse_options [CmdOpt.c "0,1"]).opts envC1 0
        = Except.ok (converter_key_claim (parse_options [CmdOpt.c "0,1"]).opts 0)
      ∧ converter_key_claim (parse_options [CmdOpt.c "0,1"]).opts 0
          ≠ converter_key_claim (parse_options [CmdOpt.c "0,1"]).opts 1 :=
  ⟨by rfl, by decide⟩

/-- C2 (amended): `get_converter` obtains exactly one converter for the whole
run, keyed by `(options.subdevice, options.channel[0], options.range)` —
the key the claim would assign to scan position 0 — and `print_datum`
applies that single converter to the samples of every channel position. -/
theorem c2_single_converter (opts : ParsedOptions) (env : Env) (flags : Int)
    (k : Int × Int × Int) (h : get_converter opts env flags = Except.ok k) :
    k = converter_key_claim opts 0 := by
  unfold get_converter at h
  split_ifs at h <;> simp_all [converter_key_claim]

theorem c2_single_converter_witness :
    get_converter defaultOptions envC1 0 = Except.ok (0, 0, 0)
      ∧ (0, 0, 0) = converter_key_claim defaultOptions 0 :=
  ⟨by rfl, c2_single_converter defaultOptions envC1 0 (0, 0, 0) (by rfl)⟩

/-- A `-c` argument with 257 comma-separated channels — one more than the
`int channel[N_CHANS]` array can hold. -/
def bigChannelArg : String := String.intercalate "," (List.replicate 257 "0")

/-- C4: the integration half of the invariant holds (every parse yields
`integrate ≥ 1`, values `≤ 0` being coerced to 1), but the channel-list
half does not: `parse_options` never checks the token count against
`N_CHANS = 256`, so `-c` with 257 channels drives `n_chan` to 257 and the
trace records a store at `channel[256]`, one past the end of the
256-element array — an out-of-bounds write in the C program. -/
theorem c4_channel_overflow :
    ((parse_options [CmdOpt.c bigChannelArg]).opts.n_chan = 257
      ∧ ¬((parse_options [CmdOpt.c bigChannelArg]).opts.n_chan ≤ N_CHANS)
      ∧ (256, 0) ∈ (parse_options [CmdOpt.c bigChannelArg]).writes)
    ∧ ∀ args : List CmdOpt, 1 ≤ (parse_options args).opts.integrate :=
  ⟨by set_option maxRecDepth 100000 in decide,
   fun args => parse_integrate_aux args ⟨defaultOptions, 0, false, []⟩ (by decide)⟩

/-- C10: the `-c` handler's token counter `n` is a `parse_options`-scope
variable that is never reset, so a later `-c` occurrence stores its tokens
after the previously parsed ones: the final `n_chan` is the total token
count over all `-c` occurrences and `channel[i]` holds the `i`-th token
over-all, in command-line order. -/
theorem c10_channel_append (args : List CmdOpt) (hc : hasCopt args = true) :
    (parse_options args).opts.n_chan = (cTokens args).length
      ∧ ∀ i, i < (cTokens args).length →
          (parse_options args).opts.channel i = atoi ((cTokens args).getD i "") := by
  obtain ⟨hn, hchan, hch⟩ := parse_channels_aux args ⟨defaultOptions, 0, false, []⟩
  constructor
  · rw [show parse_options args = args.foldl applyOpt ⟨defaultOptions, 0, false, []⟩
      from rfl, hchan, hc]
    simp
  · intro i hi
    rw [show parse_options args = args.foldl applyOpt ⟨defaultOptions, 0, false, []⟩
      from rfl, hch i]
    dsimp only
    rw [if_pos (by omega)]
    simp

theorem c10_channel_append_witness :
    hasCopt [CmdOpt.c "1,2", CmdOpt.v, CmdOpt.c "3"] = true
      ∧ ((parse_options [CmdOpt.c "1,2", CmdOpt.v, CmdOpt.c "3"]).opts.n_chan
          = (cTokens [CmdOpt.c "1,2", CmdOpt.v, CmdOpt.c "3"]).length
        ∧ ∀ i, i < (cTokens [CmdOpt.c "1,2", CmdOpt.v, CmdOpt.c "3"]).length →
            (parse_options [CmdOpt.c "1,2", CmdOpt.v, CmdOpt.c "3"]).opts.channel i
              = atoi ((cTokens [CmdOpt.c "1,2", CmdOpt.v, CmdOpt.c "3"]).getD i ""))
      ∧ (parse_options [CmdOpt.c "1,2", CmdOpt.v, CmdOpt.c "3"]).opts.n_chan = 3
      ∧ (parse_options [CmdOpt.c "1,2", CmdOpt.v, CmdOpt.c "3"]).opts.channel 0 = 1
      ∧ (parse_options [CmdOpt.c "1,2", CmdOpt.v, CmdOpt.c "3"]).opts.channel 1 = 2
      ∧ (parse_options [CmdOpt.c "1,2", CmdOpt.v, CmdOpt.c "3"]).opts.channel 2 = 3 :=
  ⟨by decide,
   c10_channel_append [CmdOpt.c "1,2", CmdOpt.v, CmdOpt.c "3"] (by decide),
   by decide, by decide, by decide, by decide⟩

/-! ## Concrete instances for the witnesses -/

/-- One channel, integration depth 2, stop count 4 — the spec's second
scenario. -/
def opts3 : ParsedOptions :=
  { defaultOptions with n_chan := 1, integrate := 2, n_scan := 4 }

/-- The spec scenario's raw samples `[1,3,5,7]` as four one-channel scans. -/
def scans3 : List (List Nat) := [[1], [3], [5], [7]]

/-- Two channels, integration depth 1, stop count 4 — the spec's first
scenario. -/
def opts8 : ParsedOptions :=
  { defaultOptions with n_chan := 2, integrate := 1, n_scan := 4 }

/-- The spec scenario's raw samples `[10..80]` as four two-channel scans. -/
def scans8 : List (List Nat) := [[10, 20], [30, 40], [50, 60], [70, 80]]

/-- The identity calibration converter (raw → raw). -/
def idConv : Nat → ℚ := fun r => (r : ℚ)

theorem c3_row_count_witness :
    (opts3.n_scan = ((4 : ℕ) : Int) ∧ 0 < 4 ∧ opts3.integrate = ((2 : ℕ) : Int)
      ∧ 1 ≤ 2 ∧ 1 ≤ opts3.n_chan ∧ (∀ sc ∈ scans3, sc.length = opts3.n_chan)
      ∧ scans3.length = 4)
    ∧ (feed_samples opts3 0 1000000 idConv initAggState scans3.flatten).2.length
        = 4 / 2 :=
  ⟨⟨by decide, by decide, by decide, by decide, by decide, by decide, by decide⟩,
   c3_row_count opts3 0 1000000 idConv scans3 4 2 (by decide) (by decide) (by decide)
     (by decide) (by decide) (by decide) (by decide)⟩

theorem c5_timestamps_witness :
    (opts3.integrate = ((2 : ℕ) : Int) ∧ 1 ≤ 2 ∧ opts3.fulltime = false
      ∧ 1 ≤ opts3.n_chan ∧ (∀ sc ∈ scans3, sc.length = opts3.n_chan))
    ∧ ((∀ j : Nat,
          j + 1 < (feed_samples opts3 0 1000000 idConv initAggState
            scans3.flatten).2.length →
          ((feed_samples opts3 0 1000000 idConv initAggState scans3.flatten).2.getD
              (j + 1) (0, [])).1
            - ((feed_samples opts3 0 1000000 idConv initAggState scans3.flatten).2.getD
                j (0, [])).1
            = ((2 : ℕ) : ℚ) * ((1000000 : ℕ) / (1000000000 : ℚ)))
      ∧ (∀ j : Nat,
          j + 1 < (feed_samples opts3 0 1000000 idConv initAggState
            scans3.flatten).2.length →
          ((feed_samples opts3 0 1000000 idConv initAggState scans3.flatten).2.getD
              j (0, [])).1
            ≤ ((feed_samples opts3 0 1000000 idConv initAggState scans3.flatten).2.getD
                (j + 1) (0, [])).1)
      ∧ (feed_samples opts3 0 1000000 idConv initAggState scans3.flatten).1.t
          = ((4 : ℕ) : ℚ) * ((1000000 : ℕ) / (1000000000 : ℚ))
      ∧ (∀ t1 t2 cmd p, double_check_cmd t1 t2 cmd = CheckResult.ok p →
          p = cmd.scan_begin_arg))
    ∧ (feed_samples opts3 0 1000000 idConv initAggState scans3.flatten).2
        = [(1 / 1000, [2]), (3 / 1000, [6])] :=
  ⟨⟨by decide, by decide, by decide, by decide, by decide⟩,
   c5_timestamps opts3 0 1000000 idConv scans3 2 (by decide) (by decide) (by decide)
     (by decide) (by decide),
   by norm_num [scans3, opts3, feed_samples, print_datum, initAggState, defaultOptions,
     idConv, Function.update, List.range_succ]⟩

theorem c6_rejected_never_armed_witness :
    ({ envC1 with test2 := 1 } : Env).test2 ≠ 0
      ∧ ((mainRun defaultOptions { envC1 with test2 := 1 } 5).armed = false
          ∧ (mainRun defaultOptions { envC1 with test2 := 1 } 5).polls = 0
          ∧ (mainRun defaultOptions { envC1 with test2 := 1 } 5).exit = some 1) :=
  ⟨by decide, c6_rejected_never_armed defaultOptions { envC1 with test2 := 1 } 5 (by decide)⟩

theorem c7_integration_mean_witness :
    (opts3.integrate = ((2 : ℕ) : Int) ∧ 1 ≤ 2 ∧ 1 ≤ opts3.n_chan
      ∧ (∀ sc ∈ scans3, sc.length = opts3.n_chan))
    ∧ ((∀ j : Nat,
          j < (feed_samples opts3 0 1000000 idConv initAggState scans3.flatten).2.length →
          ((feed_samples opts3 0 1000000 idConv initAggState scans3.flatten).2.getD
              j (0, [])).2
            = (List.range opts3.n_chan).map (fun i =>
                chanSum idConv ((scans3.drop (j * 2)).take 2) i / ((2 : ℕ) : ℚ)))
      ∧ (2 ∣ scans3.length →
          (∀ i, i < opts3.n_chan →
            (feed_samples opts3 0 1000000 idConv initAggState scans3.flatten).1.buf i = 0)
          ∧ (feed_samples opts3 0 1000000 idConv initAggState
              scans3.flatten).1.isamples = 0
          ∧ (if (feed_samples opts3 0 1000000 idConv initAggState
                scans3.flatten).1.isamples = 0
              then opts3.integrate
              else (feed_samples opts3 0 1000000 idConv initAggState
                scans3.flatten).1.isamples) = ((2 : ℕ) : Int)))
    ∧ (feed_samples opts3 0 1000000 idConv initAggState scans3.flatten).2
        = [(1 / 1000, [2]), (3 / 1000, [6])] :=
  ⟨⟨by decide, by decide, by decide, by decide⟩,
   c7_integration_mean opts3 0 1000000 idConv scans3 2 (by decide) (by decide)
     (by decide) (by decide),
   by norm_num [scans3, opts3, feed_samples, print_datum, initAggState, defaultOptions,
     idConv, Function.update, List.range_succ]⟩

theorem c8_identity_roundtrip_witness :
    (opts8.integrate = 1 ∧ 1 ≤ opts8.n_chan
      ∧ (∀ sc ∈ scans8, sc.length = opts8.n_chan))
    ∧ (feed_samples opts8 0 1000000 (fun r => (r : ℚ)) initAggState
          scans8.flatten).2.map Prod.snd
        = scans8.map (fun sc => sc.map (fun (r : ℕ) => (r : ℚ)))
    ∧ (feed_samples opts8 0 1000000 (fun r => (r : ℚ)) initAggState
          scans8.flatten).2
        = [(0, [10, 20]), (1 / 1000, [30, 40]), (2 / 1000, [50, 60]),
           (3 / 1000, [70, 80])] :=
  ⟨⟨by decide, by decide, by decide⟩,
   c8_identity_roundtrip opts8 0 1000000 scans8 (by decide) (by decide) (by decide),
   by norm_num [scans8, opts8, feed_samples, print_datum, initAggState, defaultOptions,
     Function.update, List.range_succ]⟩

theorem c9_idle_polls_witness :
    (((⟨0, 0, initAggState, 0, 0, 0⟩ : LoopSt).front
        = (⟨0, 0, initAggState, 0, 0, 0⟩ : LoopSt).back)
      ∧ (∀ j, j < 3 →
          ({ envC1 with contents := fun _ => 0 } : Env).contents
            ((⟨0, 0, initAggState, 0, 0, 0⟩ : LoopSt).polls + j) = 0)
      ∧ ¬(defaultOptions.n_scan > 0
          ∧ (⟨0, 0, initAggState, 0, 0, 0⟩ : LoopSt).agg.n ≥ defaultOptions.n_scan))
    ∧ runLoop defaultOptions { envC1 with contents := fun _ => 0 } 100000 2 0 3
        ⟨0, 0, initAggState, 0, 0, 0⟩ []
      = LoopResult.fuelOut
          { (⟨0, 0, initAggState, 0, 0, 0⟩ : LoopSt) with
            polls := (⟨0, 0, initAggState, 0, 0, 0⟩ : LoopSt).polls + 3
            sleptUs := (⟨0, 0, initAggState, 0, 0, 0⟩ : LoopSt).sleptUs + 10000 * 3 }
          [] :=
  ⟨⟨rfl, fun j _ => rfl, by decide⟩,
   c9_idle_polls defaultOptions { envC1 with contents := fun _ => 0 } 100000 2 0 3
     ⟨0, 0, initAggState, 0, 0, 0⟩ [] rfl (fun j _ => rfl) (by decide)⟩

end DaqAcquire
